import Mathlib

/-!
Shallow embedding of the nutrition-aggregation pipeline of
`test_food_lookup.py`: food-name translation, multi-dish detection and
grouping, per-item nutrition lookup against the food database, and
quantity scaling with per-dish and overall totals.

Modelling conventions:
* numeric values are exact rationals; Python `round(x, 2)` is modelled
  as round-half-to-even on rationals (`pyRound2`);
* Python dicts are insertion-ordered association lists (`dictInsert`,
  `lookupD`);
* `str.lower` is the ASCII-only lowering `lowerStr` (every non-ASCII
  character, in particular all the Japanese keywords involved, is a
  fixed point);
* the two network calls `search_food` / `get_food` are an explicit
  environment (`FdcEnv`) of fallible functions; a raised exception is
  an `Except.error` carrying the message.
-/

namespace FoodPipeline

/-- Association-list lookup, modelling Python dict indexing and the
`k in d` test (`isSome`). -/
def lookupD {α : Type} (k : String) : List (String × α) → Option α
  | [] => none
  | (k₂, v) :: rest => if k₂ = k then some v else lookupD k rest

/-- Python dict assignment `d[k] = v`: update in place when the key is
present, else append at the end. -/
def dictInsert {α : Type} (k : String) (v : α) : List (String × α) → List (String × α)
  | [] => [(k, v)]
  | (k₂, v₂) :: rest => if k₂ = k then (k₂, v) :: rest else (k₂, v₂) :: dictInsert k v rest

/-- ASCII lowering of a string, modelling Python `str.lower` on the
data this program handles. -/
def lowerStr (s : String) : String := ⟨s.data.map Char.toLower⟩

/-- Python substring test `sub in hay`. -/
def strContains (hay sub : String) : Bool := decide (sub.data <:+: hay.data)

/-- Round half to even to an integer, Python `round(x)` on exact
values: the nearer of the two neighbouring integers, ties going to the
even one. -/
def roundHalfEven (q : ℚ) : ℤ :=
  let f := ⌊q⌋
  if q < f + 1/2 then f
  else if f + 1/2 < q then f + 1
  else if f % 2 = 0 then f else f + 1

/-- Python `round(x, 2)`. -/
def pyRound2 (q : ℚ) : ℚ := (roundHalfEven (q * 100) : ℚ) / 100

/-- `{ value, unit }` quantity attached to an identified item.  A
missing or non-numeric `value` is modelled as `none`. -/
structure Quantity where
  value : Option ℚ
  unit : String
deriving DecidableEq

/-- An item identified by the vision phase. -/
structure IdentifiedItem where
  name : String
  quantity : Quantity
  confidence : ℚ
deriving DecidableEq

/-- `FOOD_TRANSLATIONS` of `test_food_lookup.py`. -/
def FOOD_TRANSLATIONS : List (String × String) :=
  [("エビ", "shrimp"),
   ("ブロッコリー", "broccoli"),
   ("ズッキーニ", "zucchini"),
   ("調味料", "seasoning"),
   ("エビとブロッコリーの炒め物", "shrimp and broccoli stir fry"),
   ("卵", "egg"),
   ("キャベツ", "cabbage"),
   ("ニラ", "chinese chives"),
   ("もやし", "bean sprouts"),
   ("豚肉", "pork"),
   ("スープ", "soup"),
   ("味噌汁", "miso soup"),
   ("野菜炒め", "stir fried vegetables"),
   ("卵焼き", "tamagoyaki"),
   ("オムレツ", "omelet")]

/-- `translate_food_name`: table lookup with lower-cased fallback. -/
def translate_food_name (japanese_name : String) : String :=
  (lookupD japanese_name FOOD_TRANSLATIONS).getD (lowerStr japanese_name)

/-- A dish inside a vision result (`{ dish_name, items }`). -/
structure VisionDish where
  dish_name : String
  items : List IdentifiedItem
deriving DecidableEq

/-- A vision result dict.  Fields are optional because the Python code
accesses them with `dict.get` and the grouped shape drops `items`. -/
structure VisionResult where
  meal_name : Option String
  items : Option (List IdentifiedItem)
  dishes : Option (List VisionDish)
  original_items : Option (List IdentifiedItem)
deriving DecidableEq

/-- The `multiple_indicators` list of `detect_multiple_dishes`. -/
def multiple_indicators : List String := ["複数", "セット", "定食", "弁当", "盛り合わせ"]

/-- The indicator test of `detect_multiple_dishes`:
`any(indicator in meal_name for indicator in multiple_indicators)`. -/
def has_indicator (meal_name : String) : Bool :=
  multiple_indicators.any (fun indicator => strContains meal_name indicator)

/-- `detect_multiple_dishes`: an indicator occurs in the lower-cased
meal name, or the flat item list has more than 4 entries. -/
def detect_multiple_dishes (vision_result : VisionResult) : Bool :=
  let meal_name := lowerStr (vision_result.meal_name.getD "")
  let items := vision_result.items.getD []
  if has_indicator meal_name then true
  else if items.length > 4 then true
  else false

/-- Soup keywords of `group_items_by_dish`. -/
def soup_words : List String := ["スープ", "汁", "味噌汁"]

/-- Cooking-method (main-dish) keywords of `group_items_by_dish`. -/
def main_words : List String := ["炒め", "焼き", "揚げ", "煮"]

/-- The soup-keyword test of the classification loop:
`any(soup_word in name for soup_word in [...])`. -/
def soupMatch (name : String) : Bool := soup_words.any (fun w => strContains name w)

/-- The cooking-method-keyword test of the classification loop:
`any(main_word in name for main_word in [...])`. -/
def mainMatch (name : String) : Bool := main_words.any (fun w => strContains name w)

/-- The classification loop of `group_items_by_dish`: one forward pass
over the items, appending each to the soup, main-dish or side-dish
bucket (checked in that order on the lower-cased name). -/
def partitionDishes :
    List IdentifiedItem → List IdentifiedItem × List IdentifiedItem × List IdentifiedItem
  | [] => ([], [], [])
  | item :: rest =>
    let (main_dishes, side_dishes, soups) := partitionDishes rest
    let name := lowerStr item.name
    if soupMatch name then
      (main_dishes, side_dishes, item :: soups)
    else if mainMatch name then
      (item :: main_dishes, side_dishes, soups)
    else
      (main_dishes, item :: side_dishes, soups)

/-- `group_items_by_dish`: pass through when `detect_multiple_dishes`
is false, otherwise bucket the flat items and emit the non-empty
buckets in the fixed order main dish, side dish, soup; when all
buckets are empty the input is returned unchanged. -/
def group_items_by_dish (vision_result : VisionResult) : VisionResult :=
  if detect_multiple_dishes vision_result = false then vision_result
  else
    let items := vision_result.items.getD []
    let (main_dishes, side_dishes, soups) := partitionDishes items
    let dishes : List VisionDish :=
      (if main_dishes.isEmpty then [] else [⟨"メイン料理", main_dishes⟩]) ++
      (if side_dishes.isEmpty then [] else [⟨"副菜", side_dishes⟩]) ++
      (if soups.isEmpty then [] else [⟨"汁物", soups⟩])
    if dishes.isEmpty then vision_result
    else
      { meal_name := some (vision_result.meal_name.getD "複数料理"),
        items := none,
        dishes := some dishes,
        original_items := some items }

/-- One entry of a food-database detail's nutrient reference
(`nutrient.get("nutrient", {})`): name and unit, each possibly absent. -/
structure NutrientRef where
  name : Option String
  unitName : Option String
deriving DecidableEq

/-- One entry of `food_details["foodNutrients"]`. -/
structure FoodNutrient where
  nutrient : Option NutrientRef
  amount : Option ℚ
deriving DecidableEq

/-- The detail record returned by `get_food`. -/
structure FoodDetails where
  description : String
  foodNutrients : Option (List FoodNutrient)
deriving DecidableEq

/-- One `search_food` result; only `fdcId` is consumed. -/
structure SearchResult where
  fdcId : ℕ
deriving DecidableEq

/-- The food-database collaborator: both calls may raise, modelled as
`Except.error` carrying the exception text. -/
structure FdcEnv where
  search_food : String → Except String (List SearchResult)
  get_food : ℕ → Except String FoodDetails

/-- `{ value, unit }` of a retained raw nutrient (per-100-unit basis). -/
structure NutrientData where
  value : ℚ
  unit : String
deriving DecidableEq

/-- `{ value, unit, original_name }` of a quantity-scaled nutrient. -/
structure ActualNutrient where
  value : ℚ
  unit : String
  original_name : String
deriving DecidableEq

/-- The per-item record built by the lookup phase and mutated by the
scaling phase (`actual_nutrients` is absent until scaling). -/
structure NutritionItem where
  name_jp : String
  name_en : String
  quantity : Quantity
  confidence : ℚ
  fdc_id : Option ℕ
  fdc_description : String
  nutrients : List (String × NutrientData)
  actual_nutrients : Option (List (String × ActualNutrient))
deriving DecidableEq

/-- The six retained-nutrient keywords of the lookup filter. -/
def nutrient_keys : List String :=
  ["energy", "protein", "carbohydrate", "fat", "fiber", "sodium"]

/-- The nutrient-collection loop over `food_details["foodNutrients"]`:
keep an entry when its lower-cased name contains one of the six
keywords, keyed by the raw name. -/
def buildNutrients : List FoodNutrient → List (String × NutrientData) → List (String × NutrientData)
  | [], nutrients => nutrients
  | fn :: rest, nutrients =>
    let nutrient_name := (fn.nutrient.bind NutrientRef.name).getD ""
    let nutrient_value := fn.amount.getD 0
    let nutrient_unit := (fn.nutrient.bind NutrientRef.unitName).getD ""
    if nutrient_keys.any (fun key => strContains (lowerStr nutrient_name) key) then
      buildNutrients rest (dictInsert nutrient_name ⟨nutrient_value, nutrient_unit⟩ nutrients)
    else
      buildNutrients rest nutrients

/-- The not-found record of the lookup phase. -/
def notFoundItem (item : IdentifiedItem) : NutritionItem :=
  { name_jp := item.name,
    name_en := translate_food_name item.name,
    quantity := item.quantity,
    confidence := item.confidence,
    fdc_id := none,
    fdc_description := "FDCで見つかりませんでした",
    nutrients := [],
    actual_nutrients := none }

/-- The caught-exception record of the lookup phase. -/
def errorItem (item : IdentifiedItem) (e : String) : NutritionItem :=
  { name_jp := item.name,
    name_en := translate_food_name item.name,
    quantity := item.quantity,
    confidence := item.confidence,
    fdc_id := none,
    fdc_description := "エラー: " ++ e,
    nutrients := [],
    actual_nutrients := none }

/-- The body of the per-item loop of `get_nutrition_info_for_items`:
search, take the first hit, fetch its detail and filter its
nutrients; zero hits yield the not-found record and any raised error
is caught into the error record. -/
def processItem (env : FdcEnv) (item : IdentifiedItem) : NutritionItem :=
  let japanese_name := item.name
  let english_name := translate_food_name japanese_name
  match env.search_food english_name with
  | .error e => errorItem item e
  | .ok [] => notFoundItem item
  | .ok (first :: _) =>
    match env.get_food first.fdcId with
    | .error e => errorItem item e
    | .ok food_details =>
      let nutrients :=
        match food_details.foodNutrients with
        | none => []
        | some fns => buildNutrients fns []
      { name_jp := japanese_name,
        name_en := english_name,
        quantity := item.quantity,
        confidence := item.confidence,
        fdc_id := some first.fdcId,
        fdc_description := food_details.description,
        nutrients := nutrients,
        actual_nutrients := none }

/-- `get_nutrition_info_for_items`: the sequential per-item lookup
loop, one output record appended per input item. -/
def get_nutrition_info_for_items (env : FdcEnv) : List IdentifiedItem → List NutritionItem
  | [] => []
  | item :: rest => processItem env item :: get_nutrition_info_for_items env rest

/-- `{ value, unit }` entry of a running nutrition total. -/
structure TotalEntry where
  value : ℚ
  unit : String
deriving DecidableEq

/-- A nutrition total: a dict from display name to value and unit. -/
def Total := List (String × TotalEntry)

/-- `NUTRIENT_TRANSLATIONS` of `calculate_actual_nutrition_for_items`. -/
def NUTRIENT_TRANSLATIONS : List (String × String) :=
  [("Energy", "エネルギー"),
   ("Protein", "タンパク質"),
   ("Total lipid (fat)", "脂質"),
   ("Carbohydrate, by difference", "炭水化物"),
   ("Fiber, total dietary", "食物繊維"),
   ("Sodium, Na", "ナトリウム"),
   ("Fatty acids, total saturated", "飽和脂肪酸"),
   ("Fatty acids, total trans", "トランス脂肪酸")]

/-- `NUTRIENT_TRANSLATIONS.get(name, name)`. -/
def nutrientTranslate (nutrient_name : String) : String :=
  (lookupD nutrient_name NUTRIENT_TRANSLATIONS).getD nutrient_name

/-- The totals update of the scaling loop: initialise an absent key to
zero with the contributing unit, then add the unrounded value. -/
def addToTotal (jp_name : String) (v : ℚ) (u : String) : Total → Total
  | [] => [(jp_name, ⟨v, u⟩)]
  | (k, e) :: rest =>
    if k = jp_name then (k, ⟨e.value + v, e.unit⟩) :: rest
    else (k, e) :: addToTotal jp_name v u rest

/-- Python truthiness of `item["fdc_id"]` (an absent or zero id is falsy). -/
def truthyId : Option ℕ → Bool
  | none => false
  | some n => n != 0

/-- The inner loop of the scaling phase over one item's raw nutrients:
build `actual_nutrients` (rounded, keyed by translated name, keeping
the original name) and accumulate the unrounded value into the running
total. -/
def applyNutrients (quantity_g : ℚ) :
    List (String × NutrientData) → List (String × ActualNutrient) → Total →
    List (String × ActualNutrient) × Total
  | [], actual_nutrients, dish_total => (actual_nutrients, dish_total)
  | (nutrient_name, nutrient_data) :: rest, actual_nutrients, dish_total =>
    let actual_value := nutrient_data.value * quantity_g / 100
    let jp_name := nutrientTranslate nutrient_name
    applyNutrients quantity_g rest
      (dictInsert jp_name ⟨pyRound2 actual_value, nutrient_data.unit, nutrient_name⟩
        actual_nutrients)
      (addToTotal jp_name actual_value nutrient_data.unit dish_total)

/-- Python truthiness of `item["fdc_id"] and item["nutrients"]`. -/
def itemEligible (item : NutritionItem) : Bool :=
  truthyId item.fdc_id && !item.nutrients.isEmpty

/-- The outer loop of `calculate_actual_nutrition_for_items`.  An item
whose `fdc_id` is truthy and whose nutrients dict is non-empty needs
`quantity["value"]`; a missing or non-numeric value raises, which
aborts the whole loop (`Except.error`). -/
def scaleItemsLoop : List NutritionItem → Total → Except String (List NutritionItem × Total)
  | [], dish_total => .ok ([], dish_total)
  | item :: rest, dish_total =>
    if itemEligible item then
      match item.quantity.value with
      | none => .error ("KeyError: quantity value for " ++ item.name_jp)
      | some quantity_g =>
        let (actual_nutrients, dish_total₂) := applyNutrients quantity_g item.nutrients [] dish_total
        match scaleItemsLoop rest dish_total₂ with
        | .error e => .error e
        | .ok (items, t) => .ok ({ item with actual_nutrients := some actual_nutrients } :: items, t)
    else
      match scaleItemsLoop rest dish_total with
      | .error e => .error e
      | .ok (items, t) => .ok (item :: items, t)

/-- Final rounding of a total's values to 2 decimal places. -/
def roundTotal (t : Total) : Total :=
  t.map (fun p => (p.1, ⟨pyRound2 p.2.value, p.2.unit⟩))

/-- `calculate_actual_nutrition_for_items`: scale every eligible item
and return the mutated items with the rounded dish total. -/
def calculate_actual_nutrition_for_items (items : List NutritionItem) :
    Except String (List NutritionItem × Total) :=
  match scaleItemsLoop items [] with
  | .error e => .error e
  | .ok (items₂, dish_total) => .ok (items₂, roundTotal dish_total)

/-- A dish of the nutrition report. -/
structure Dish where
  dish_name : String
  items : List NutritionItem
  dish_nutrition : Option Total

/-- The report under construction: either a flat `items` list or a
`dishes` list, plus the overall total once computed. -/
structure NutritionData where
  meal_name : String
  meal_name_en : String
  items : Option (List NutritionItem)
  dishes : Option (List Dish)
  total_nutrition : Option Total

/-- The overall-total accumulation of the multi-dish branch: fold one
dish's (already rounded) total into the overall total. -/
def addDishTotal : Total → Total → Total
  | [], overall => overall
  | (jp_name, e) :: rest, overall => addDishTotal rest (addToTotal jp_name e.value e.unit overall)

/-- The dish loop of the multi-dish branch of
`calculate_actual_nutrition`: scale each dish's items, record its
rounded dish total, and accumulate the rounded dish totals into the
overall total. -/
def scaleDishesLoop : List Dish → Total → Except String (List Dish × Total)
  | [], overall => .ok ([], overall)
  | dish :: rest, overall =>
    match calculate_actual_nutrition_for_items dish.items with
    | .error e => .error e
    | .ok (items, dish_total) =>
      match scaleDishesLoop rest (addDishTotal dish_total overall) with
      | .error e => .error e
      | .ok (dishes, ov) =>
        .ok ({ dish with items := items, dish_nutrition := some dish_total } :: dishes, ov)

/-- `calculate_actual_nutrition`: multi-dish branch when `dishes` is
present (overall total is the re-rounded sum of the rounded dish
totals), else the flat branch (a report with neither key raises). -/
def calculate_actual_nutrition (nutrition_data : NutritionData) :
    Except String NutritionData :=
  match nutrition_data.dishes with
  | some dishes =>
    match scaleDishesLoop dishes [] with
    | .error e => .error e
    | .ok (dishes₂, overall_total) =>
      .ok { nutrition_data with dishes := some dishes₂,
                                total_nutrition := some (roundTotal overall_total) }
  | none =>
    match nutrition_data.items with
    | none => .error "KeyError: items"
    | some items =>
      match calculate_actual_nutrition_for_items items with
      | .error e => .error e
      | .ok (items₂, total_nutrition) =>
        .ok { nutrition_data with items := some items₂,
                                  total_nutrition := some total_nutrition }

/-! ### Dictionary lemmas -/

theorem lookupD_dictInsert_self {α : Type} (k : String) (v : α) (l : List (String × α)) :
    lookupD k (dictInsert k v l) = some v := by
  induction l with
  | nil => simp [lookupD, dictInsert]
  | cons p rest ih =>
    obtain ⟨a, b⟩ := p
    by_cases h : a = k
    · subst h
      simp [lookupD, dictInsert]
    · simp [lookupD, dictInsert, h, ih]

theorem lookupD_dictInsert_ne {α : Type} {k k₂ : String} (v : α) (l : List (String × α))
    (h : k ≠ k₂) : lookupD k (dictInsert k₂ v l) = lookupD k l := by
  induction l with
  | nil => simp [lookupD, dictInsert, Ne.symm h]
  | cons p rest ih =>
    obtain ⟨a, b⟩ := p
    by_cases h₂ : a = k₂
    · subst h₂
      simp [lookupD, dictInsert, Ne.symm h]
    · by_cases h₃ : a = k
      · subst h₃
        simp [lookupD, dictInsert, h₂]
      · simp [lookupD, dictInsert, h₂, h₃, ih]

/-! ### `Char.toLower` and substring invariance

The Japanese keyword strings the grouper and detector match against are
untouched by Python `str.lower`; these lemmas let every substring test
on a lower-cased name be replaced by the same test on the raw name. -/

theorem toLower_le_or_eq (c : Char) :
    (Char.toLower c).toNat ≤ 122 ∨ Char.toLower c = c := by
  have hdef : Char.toLower c =
      if c.toNat ≥ 65 ∧ c.toNat ≤ 90 then Char.ofNat (c.toNat + 32) else c := rfl
  rw [hdef]
  by_cases h : c.toNat ≥ 65 ∧ c.toNat ≤ 90
  · rw [if_pos h]
    left
    have hv : (c.toNat + 32).isValidChar := Or.inl (by omega)
    rw [Char.ofNat, dif_pos hv]
    have he : (Char.ofNatAux (c.toNat + 32) hv).toNat = c.toNat + 32 := rfl
    omega
  · rw [if_neg h]
    right
    rfl

theorem eq_of_toLower_eq_big {c x : Char} (hx : 122 < x.toNat) (h : Char.toLower c = x) :
    c = x := by
  rcases toLower_le_or_eq c with h₂ | h₂
  · rw [h] at h₂
    omega
  · rw [← h₂, h]

theorem map_toLower_eq_of_big {m ind : List Char}
    (hbig : ∀ x ∈ ind, 122 < x.toNat) (h : m.map Char.toLower = ind) : m = ind := by
  induction m generalizing ind with
  | nil => simp at h; rw [← h]
  | cons a m ih =>
    cases ind with
    | nil => simp at h
    | cons x ind =>
      simp only [List.map_cons, List.cons.injEq] at h
      obtain ⟨h₁, h₂⟩ := h
      have ha : a = x := eq_of_toLower_eq_big (hbig x (by simp)) h₁
      have hm : m = ind := ih (fun y hy => hbig y (by simp [hy])) h₂
      rw [ha, hm]

theorem infix_map_toLower_iff {ind s : List Char}
    (hfix : ∀ x ∈ ind, Char.toLower x = x)
    (hbig : ∀ x ∈ ind, 122 < x.toNat) :
    ind <:+: s.map Char.toLower ↔ ind <:+: s := by
  constructor
  · rintro ⟨t, u, h⟩
    obtain ⟨s₁, s₂, hs, ht, hu⟩ := List.map_eq_append_iff.mp h.symm
    obtain ⟨s₃, s₄, hs₂, ht₂, hind⟩ := List.map_eq_append_iff.mp ht
    have h₃ : s₄ = ind := map_toLower_eq_of_big hbig hind
    exact ⟨s₃, s₂, by rw [hs, hs₂, h₃]⟩
  · intro h
    have hself : ind.map Char.toLower = ind := by
      rw [List.map_congr_left hfix]
      simp
    have := h.map Char.toLower
    rwa [hself] at this

theorem strContains_lowerStr (s ind : String)
    (hfix : ∀ x ∈ ind.data, Char.toLower x = x)
    (hbig : ∀ x ∈ ind.data, 122 < x.toNat) :
    strContains (lowerStr s) ind = strContains s ind := by
  unfold strContains lowerStr
  simp only [decide_eq_decide]
  exact infix_map_toLower_iff hfix hbig

/-- A keyword list is `lower`-invariant when each keyword is made of
characters beyond ASCII that `Char.toLower` fixes. -/
def lowerInvariant (ws : List String) : Prop :=
  ∀ w ∈ ws, (∀ x ∈ w.data, Char.toLower x = x) ∧ (∀ x ∈ w.data, 122 < x.toNat)

instance (ws : List String) : Decidable (lowerInvariant ws) := by
  unfold lowerInvariant
  infer_instance

theorem any_strContains_lowerStr (s : String) {ws : List String}
    (h : lowerInvariant ws) :
    (ws.any (fun w => strContains (lowerStr s) w)) = ws.any (fun w => strContains s w) := by
  induction ws with
  | nil => rfl
  | cons w rest ih =>
    have hw := h w (by simp)
    have hrest : lowerInvariant rest := fun w₂ hw₂ => h w₂ (by simp [hw₂])
    simp only [List.any_cons, strContains_lowerStr s w hw.1 hw.2, ih hrest]

theorem multiple_indicators_invariant : lowerInvariant multiple_indicators := by decide

theorem soup_words_invariant : lowerInvariant soup_words := by decide

theorem main_words_invariant : lowerInvariant main_words := by decide

/-! ### Multi-dish detection -/

theorem has_indicator_lowerStr (s : String) : has_indicator (lowerStr s) = has_indicator s :=
  any_strContains_lowerStr s multiple_indicators_invariant

theorem soupMatch_lowerStr (s : String) : soupMatch (lowerStr s) = soupMatch s :=
  any_strContains_lowerStr s soup_words_invariant

theorem mainMatch_lowerStr (s : String) : mainMatch (lowerStr s) = mainMatch s :=
  any_strContains_lowerStr s main_words_invariant

theorem detect_eq (r : VisionResult) :
    detect_multiple_dishes r =
      (has_indicator (r.meal_name.getD "") || decide (4 < (r.items.getD []).length)) := by
  simp only [detect_multiple_dishes, has_indicator_lowerStr]
  cases h : has_indicator (r.meal_name.getD "")
  · by_cases h₂ : (r.items.getD []).length > 4 <;> simp [h₂]
  · simp

/-! ### Dish classification -/

/-- The three buckets of `group_items_by_dish`. -/
inductive DishBucket
  | main
  | side
  | soup
deriving DecidableEq

/-- Specification-side classification of one item by its raw name,
soup keywords taking priority over cooking-method keywords. -/
def classify_item (item : IdentifiedItem) : DishBucket :=
  if soupMatch item.name then .soup
  else if mainMatch item.name then .main
  else .side

theorem partitionDishes_eq_filters (items : List IdentifiedItem) :
    partitionDishes items =
      (items.filter (fun it => classify_item it == .main),
       items.filter (fun it => classify_item it == .side),
       items.filter (fun it => classify_item it == .soup)) := by
  induction items with
  | nil => rfl
  | cons item rest ih =>
    simp only [partitionDishes, ih, soupMatch_lowerStr, mainMatch_lowerStr]
    cases hsoup : soupMatch item.name
    · cases hmain : mainMatch item.name
      · simp [List.filter_cons, classify_item, hsoup, hmain]
      · simp [List.filter_cons, classify_item, hsoup, hmain]
    · simp [List.filter_cons, classify_item, hsoup]

theorem partitionDishes_perm (items : List IdentifiedItem) :
    ((partitionDishes items).1 ++ ((partitionDishes items).2.1 ++ (partitionDishes items).2.2)).Perm
      items := by
  induction items with
  | nil => simp [partitionDishes]
  | cons item rest ih =>
    rcases hp : partitionDishes rest with ⟨m, s, so⟩
    rw [hp] at ih
    simp only [partitionDishes, hp, soupMatch_lowerStr, mainMatch_lowerStr]
    cases hsoup : soupMatch item.name
    · cases hmain : mainMatch item.name
      · simp only [Bool.false_eq_true, if_false]
        refine List.Perm.trans ?_ (ih.cons item)
        have := @List.perm_middle _ item m (s ++ so)
        simpa [List.append_assoc] using this
      · simp only [if_true]
        exact ih.cons item
    · simp only [if_true]
      refine List.Perm.trans ?_ (ih.cons item)
      have := @List.perm_middle _ item (m ++ s) so
      simpa [List.append_assoc] using this

/-- Items of the bucket list actually emitted for one bucket. -/
theorem bucket_flat (nm : String) (l : List IdentifiedItem) :
    ((if l.isEmpty then ([] : List VisionDish) else [⟨nm, l⟩]).flatMap VisionDish.items) = l := by
  cases l <;> simp

/-- The grouped shape of `group_items_by_dish` when detection fires and
the flat item list is non-empty. -/
theorem group_eq_of_detect (r : VisionResult) (hdet : detect_multiple_dishes r = true)
    (hne : r.items.getD [] ≠ []) :
    ∃ m s so, partitionDishes (r.items.getD []) = (m, s, so) ∧
      group_items_by_dish r =
        { meal_name := some (r.meal_name.getD "複数料理"),
          items := none,
          dishes := some ((if m.isEmpty then [] else [⟨"メイン料理", m⟩]) ++
                          (if s.isEmpty then [] else [⟨"副菜", s⟩]) ++
                          (if so.isEmpty then [] else [⟨"汁物", so⟩])),
          original_items := some (r.items.getD []) } := by
  rcases hp : partitionDishes (r.items.getD []) with ⟨m, s, so⟩
  refine ⟨m, s, so, rfl, ?_⟩
  have hperm := partitionDishes_perm (r.items.getD [])
  rw [hp] at hperm
  have hds : ¬((if m.isEmpty then ([] : List VisionDish) else [⟨"メイン料理", m⟩]) ++
      (if s.isEmpty then ([] : List VisionDish) else [⟨"副菜", s⟩]) ++
      (if so.isEmpty then ([] : List VisionDish) else [⟨"汁物", so⟩])).isEmpty = true := by
    intro hempty
    rw [List.isEmpty_iff] at hempty
    have hm : m = [] := by
      cases hm : m.isEmpty
      · rw [hm] at hempty; simp at hempty
      · exact List.isEmpty_iff.mp hm
    have hs : s = [] := by
      cases hs : s.isEmpty
      · rw [hs] at hempty; simp at hempty
      · exact List.isEmpty_iff.mp hs
    have hso : so = [] := by
      cases hso : so.isEmpty
      · rw [hso] at hempty; simp at hempty
      · exact List.isEmpty_iff.mp hso
    rw [hm, hs, hso] at hperm
    have hlen := hperm.length_eq
    simp only [List.length_append, List.length_nil] at hlen
    exact hne (List.length_eq_zero.mp hlen.symm)
  simp only [group_items_by_dish, hdet, Bool.true_eq_false, if_false, hp]
  rw [if_neg hds]

/-! ### Concrete inputs used by witnesses -/

/-- A five-item single-dish vision result (no indicator in the meal
name); the first item name contains both a soup keyword and a
cooking-method keyword. -/
def rGrouped : VisionResult :=
  { meal_name := some "朝食",
    items := some [⟨"具だくさんスープ炒め", ⟨some 200, "ml"⟩, 9/10⟩,
                   ⟨"野菜炒め", ⟨some 150, "g"⟩, 8/10⟩,
                   ⟨"ごはん", ⟨some 200, "g"⟩, 1⟩,
                   ⟨"卵焼き", ⟨some 80, "g"⟩, 7/10⟩,
                   ⟨"サラダ", ⟨some 60, "g"⟩, 9/10⟩],
    dishes := none,
    original_items := none }

/-- A vision result whose meal name contains an indicator but whose
items are already nested under `dishes` (no flat `items` key). -/
def rNested : VisionResult :=
  { meal_name := some "焼き魚定食",
    items := none,
    dishes := some [⟨"焼き魚", [⟨"サバ", ⟨some 100, "g"⟩, 9/10⟩]⟩],
    original_items := none }

/-! ### Claim theorems for detection and grouping -/

/-- C6: `detect_multiple_dishes` (the spec's `shouldGroup`) returns
true iff the meal name contains one of the fixed multi-dish indicator
substrings or the flat item list has more than 4 entries; hence it is
true for every 5-or-more-item list and false for a 4-item list whose
meal name has no indicator. -/
theorem c6_shouldGroup_iff (r : VisionResult) :
    detect_multiple_dishes r = true ↔
      (has_indicator (r.meal_name.getD "") = true ∨ 4 < (r.items.getD []).length) := by
  rw [detect_eq]
  simp

/-- C7: when grouping applies to a non-empty flat item list, the output
dish list is exactly the three buckets obtained by classifying each
item with `classify_item` (soup keywords first, then cooking-method
keywords, else side dish), emitted in the fixed order main dish, side
dish, soup, with empty buckets omitted. -/
theorem c7_group_buckets (r : VisionResult)
    (hdet : detect_multiple_dishes r = true) (hne : r.items.getD [] ≠ []) :
    (group_items_by_dish r).dishes = some (
      (if ((r.items.getD []).filter (fun it => classify_item it == .main)).isEmpty then []
       else [⟨"メイン料理", (r.items.getD []).filter (fun it => classify_item it == .main)⟩]) ++
      (if ((r.items.getD []).filter (fun it => classify_item it == .side)).isEmpty then []
       else [⟨"副菜", (r.items.getD []).filter (fun it => classify_item it == .side)⟩]) ++
      (if ((r.items.getD []).filter (fun it => classify_item it == .soup)).isEmpty then []
       else [⟨"汁物", (r.items.getD []).filter (fun it => classify_item it == .soup)⟩])) := by
  obtain ⟨m, s, so, hp, hg⟩ := group_eq_of_detect r hdet hne
  have hfil := partitionDishes_eq_filters (r.items.getD [])
  rw [hp] at hfil
  injection hfil with h₁ h₂
  injection h₂ with h₃ h₄
  rw [hg, h₁, h₃, h₄]

/-- C7 witness: on the concrete five-item result the item whose name
contains both a soup and a cooking-method keyword lands in the soup
bucket, and the buckets come out in the fixed order. -/
theorem c7_group_buckets_witness :
    (group_items_by_dish rGrouped).dishes = some
      [⟨"メイン料理", [⟨"野菜炒め", ⟨some 150, "g"⟩, 8/10⟩, ⟨"卵焼き", ⟨some 80, "g"⟩, 7/10⟩]⟩,
       ⟨"副菜", [⟨"ごはん", ⟨some 200, "g"⟩, 1⟩, ⟨"サラダ", ⟨some 60, "g"⟩, 9/10⟩]⟩,
       ⟨"汁物", [⟨"具だくさんスープ炒め", ⟨some 200, "ml"⟩, 9/10⟩]⟩] := by
  rw [c7_group_buckets rGrouped (by decide) (by decide)]
  rfl

/-- C2: when grouping applies to a non-empty flat item list, the dishes
of the output carry every input item exactly once: the dish sizes sum
to the input length and the concatenation of the dishes' item lists is
a permutation of the input items. -/
theorem c2_group_preserves_items (r : VisionResult)
    (hdet : detect_multiple_dishes r = true) (hne : r.items.getD [] ≠ []) :
    ∃ ds, (group_items_by_dish r).dishes = some ds ∧
      (ds.map (fun d => d.items.length)).sum = (r.items.getD []).length ∧
      (ds.flatMap VisionDish.items).Perm (r.items.getD []) := by
  obtain ⟨m, s, so, hp, hg⟩ := group_eq_of_detect r hdet hne
  have hperm := partitionDishes_perm (r.items.getD [])
  rw [hp] at hperm
  refine ⟨_, by rw [hg], ?_, ?_⟩
  case refine_2 =>
    simp only [List.flatMap_append, bucket_flat]
    simpa [List.append_assoc] using hperm
  case refine_1 =>
    have hlen : ((if m.isEmpty then ([] : List VisionDish) else [⟨"メイン料理", m⟩]) ++
        (if s.isEmpty then ([] : List VisionDish) else [⟨"副菜", s⟩]) ++
        (if so.isEmpty then ([] : List VisionDish) else [⟨"汁物", so⟩])).flatMap VisionDish.items
        = m ++ s ++ so := by
      simp only [List.flatMap_append, bucket_flat]
    have hperm₂ : (m ++ s ++ so).Perm (r.items.getD []) := by
      simpa [List.append_assoc] using hperm
    have := hperm₂.length_eq
    rw [← hlen, List.length_flatMap] at this
    exact this

/-- C2 witness: the concrete five-item result is regrouped into dishes
whose items are a permutation of the original items. -/
theorem c2_group_preserves_items_witness :
    (((group_items_by_dish rGrouped).dishes.getD []).flatMap VisionDish.items).Perm
      (rGrouped.items.getD []) := by
  obtain ⟨ds, hds, hlen, hperm⟩ :=
    c2_group_preserves_items rGrouped (by decide) (by decide)
  rw [hds]
  exact hperm

/-- C9: when grouping applies to a non-empty flat item list, each
output dish's item list is a sublist of the input items, i.e. items
keep their relative input order inside every dish (stable partition). -/
theorem c9_group_stable (r : VisionResult) (d : VisionDish)
    (hdet : detect_multiple_dishes r = true) (hne : r.items.getD [] ≠ [])
    (hd : d ∈ (group_items_by_dish r).dishes.getD []) :
    d.items.Sublist (r.items.getD []) := by
  obtain ⟨m, s, so, hp, hg⟩ := group_eq_of_detect r hdet hne
  rw [hg] at hd
  simp only [Option.getD_some] at hd
  have hfil := partitionDishes_eq_filters (r.items.getD [])
  rw [hp] at hfil
  injection hfil with h₁ h₂
  injection h₂ with h₃ h₄
  have hcases : d.items = m ∨ d.items = s ∨ d.items = so := by
    rcases List.mem_append.mp hd with h | h
    · rcases List.mem_append.mp h with h₂ | h₂
      · left
        by_cases hm : m.isEmpty
        · rw [if_pos hm] at h₂
          simp at h₂
        · rw [if_neg hm] at h₂
          simp at h₂
          rw [h₂]
      · right; left
        by_cases hs : s.isEmpty
        · rw [if_pos hs] at h₂
          simp at h₂
        · rw [if_neg hs] at h₂
          simp at h₂
          rw [h₂]
    · right; right
      by_cases hso : so.isEmpty
      · rw [if_pos hso] at h
        simp at h
      · rw [if_neg hso] at h
        simp at h
        rw [h]
  rcases hcases with h | h | h <;> rw [h]
  · rw [h₁]
    exact List.filter_sublist _
  · rw [h₃]
    exact List.filter_sublist _
  · rw [h₄]
    exact List.filter_sublist _

/-- C9 witness: the main-dish bucket of the concrete five-item result
keeps its two items in input order. -/
theorem c9_group_stable_witness :
    (⟨"メイン料理", [⟨"野菜炒め", ⟨some 150, "g"⟩, 8/10⟩,
                     ⟨"卵焼き", ⟨some 80, "g"⟩, 7/10⟩]⟩ : VisionDish).items.Sublist
      (rGrouped.items.getD []) :=
  c9_group_stable rGrouped _ (by decide) (by decide) (by
    have h : (group_items_by_dish rGrouped).dishes.getD [] =
        ⟨"メイン料理", [⟨"野菜炒め", ⟨some 150, "g"⟩, 8/10⟩, ⟨"卵焼き", ⟨some 80, "g"⟩, 7/10⟩]⟩ ::
        [⟨"副菜", [⟨"ごはん", ⟨some 200, "g"⟩, 1⟩, ⟨"サラダ", ⟨some 60, "g"⟩, 9/10⟩]⟩,
         ⟨"汁物", [⟨"具だくさんスープ炒め", ⟨some 200, "ml"⟩, 9/10⟩]⟩] := rfl
    rw [h]
    exact List.mem_cons_self _ _)

/-- C10: if detection fires while the flat item list is empty or
absent, all three buckets end up empty and `group_items_by_dish`
returns its input unchanged — the defensive all-buckets-empty branch
is reachable. -/
theorem c10_group_empty_passthrough (r : VisionResult)
    (hdet : detect_multiple_dishes r = true) (hitems : r.items.getD [] = []) :
    group_items_by_dish r = r := by
  simp only [group_items_by_dish, hdet, Bool.true_eq_false, if_false, hitems, partitionDishes]
  simp

/-- C10 witness: a result with an indicator in its meal name and items
already nested under dishes passes through `group_items_by_dish`
unchanged. -/
theorem c10_group_empty_passthrough_witness :
    group_items_by_dish rNested = rNested :=
  c10_group_empty_passthrough rNested (by decide) rfl

/-! ### Lookup-phase lemmas and claims (C3, C5) -/

theorem processItem_fields (env : FdcEnv) (item : IdentifiedItem) :
    (processItem env item).name_jp = item.name ∧
    (processItem env item).quantity = item.quantity ∧
    (processItem env item).confidence = item.confidence := by
  cases hs : env.search_food (translate_food_name item.name) with
  | error e => simp [processItem, hs, errorItem]
  | ok l =>
    cases l with
    | nil => simp [processItem, hs, notFoundItem]
    | cons first rest =>
      cases hg : env.get_food first.fdcId with
      | error e => simp [processItem, hs, hg, errorItem]
      | ok fd => simp [processItem, hs, hg]

theorem length_lookup (env : FdcEnv) (items : List IdentifiedItem) :
    (get_nutrition_info_for_items env items).length = items.length := by
  induction items with
  | nil => rfl
  | cons item rest ih => simp [get_nutrition_info_for_items, ih]

theorem getElem?_lookup (env : FdcEnv) (items : List IdentifiedItem) (i : ℕ) :
    (get_nutrition_info_for_items env items)[i]? = (items[i]?).map (processItem env) := by
  induction items generalizing i with
  | nil => simp [get_nutrition_info_for_items]
  | cons item rest ih =>
    cases i with
    | zero => simp [get_nutrition_info_for_items]
    | succ n => simp [get_nutrition_info_for_items, ih]

/-- C5: the lookup phase returns exactly one output per input item, in
input order, and the i-th output carries the i-th input's original
name, quantity and confidence unchanged. -/
theorem c5_lookup_preserves_items (env : FdcEnv) (items : List IdentifiedItem) :
    (get_nutrition_info_for_items env items).length = items.length ∧
    ∀ i : ℕ,
      ((get_nutrition_info_for_items env items)[i]?).map
          (fun out => (out.name_jp, out.quantity, out.confidence)) =
        (items[i]?).map (fun it => (it.name, it.quantity, it.confidence)) := by
  refine ⟨length_lookup env items, fun i => ?_⟩
  rw [getElem?_lookup]
  cases h : items[i]? with
  | none => rfl
  | some item =>
    obtain ⟨h₁, h₂, h₃⟩ := processItem_fields env item
    simp [h₁, h₂, h₃]

/-- C3: when an item's search returns no results, or the search or the
detail fetch raises, the lookup phase still emits a record for that
item — absent `fdc_id`, empty `nutrients`, and the not-found text or
the error text as description — and the batch keeps its full length. -/
theorem c3_lookup_failure_is_soft (env : FdcEnv) (items : List IdentifiedItem) (i : ℕ)
    (item : IdentifiedItem) (hi : items[i]? = some item)
    (hfail :
      env.search_food (translate_food_name item.name) = .ok [] ∨
      (∃ e, env.search_food (translate_food_name item.name) = .error e) ∨
      (∃ first rest e, env.search_food (translate_food_name item.name) = .ok (first :: rest) ∧
        env.get_food first.fdcId = .error e)) :
    (get_nutrition_info_for_items env items).length = items.length ∧
    ∃ out, (get_nutrition_info_for_items env items)[i]? = some out ∧
      out.fdc_id = none ∧ out.nutrients = [] ∧
      (out.fdc_description = "FDCで見つかりませんでした" ∨
       ∃ e, out.fdc_description = "エラー: " ++ e) := by
  refine ⟨length_lookup env items, ?_⟩
  rw [getElem?_lookup, hi]
  rcases hfail with h | ⟨e, h⟩ | ⟨first, rest, e, h, hg⟩
  · refine ⟨notFoundItem item, ?_, rfl, rfl, Or.inl rfl⟩
    simp [processItem, h]
  · refine ⟨errorItem item e, ?_, rfl, rfl, Or.inr ⟨e, rfl⟩⟩
    simp [processItem, h]
  · refine ⟨errorItem item e, ?_, rfl, rfl, Or.inr ⟨e, rfl⟩⟩
    simp [processItem, h, hg]

/-- An environment whose calls always raise. -/
def envFail : FdcEnv :=
  { search_food := fun _ => .error "network down",
    get_food := fun _ => .error "network down" }

/-- A one-item batch for the lookup-failure witness. -/
def itemsC3 : List IdentifiedItem := [⟨"エビ", ⟨some 150, "g"⟩, 9/10⟩]

/-- C3 witness: with an always-raising environment the one-item batch
still yields one record, whose description carries the error text. -/
theorem c3_lookup_failure_is_soft_witness :
    (get_nutrition_info_for_items envFail itemsC3).length = itemsC3.length ∧
    (get_nutrition_info_for_items envFail itemsC3)[0]?.map NutritionItem.fdc_description =
      some "エラー: network down" := by
  obtain ⟨hlen, out, hout, hid, hnut, hdesc⟩ :=
    c3_lookup_failure_is_soft envFail itemsC3 0 ⟨"エビ", ⟨some 150, "g"⟩, 9/10⟩ rfl
      (Or.inr (Or.inl ⟨"network down", rfl⟩))
  exact ⟨hlen, rfl⟩

/-! ### Totals: basic accounting lemmas -/

/-- Value recorded for display name `n` in a running total (0 when absent). -/
def valueAt (n : String) (t : Total) : ℚ := ((lookupD n t).map TotalEntry.value).getD 0

/-- Whether display name `n` has an entry in a running total. -/
def hasKey (n : String) (t : Total) : Bool := (lookupD n t).isSome

/-- The keys of a running total, in order. -/
def keysOf (t : Total) : List String := t.map Prod.fst

theorem lookupD_nil {α : Type} (n : String) : lookupD n ([] : List (String × α)) = none := rfl

theorem lookupD_cons_self {α : Type} (a : String) (v : α) (rest : List (String × α)) :
    lookupD a ((a, v) :: rest) = some v := by
  simp [lookupD]

theorem lookupD_cons_ne {α : Type} {n a : String} (v : α) (rest : List (String × α))
    (h : a ≠ n) : lookupD n ((a, v) :: rest) = lookupD n rest := by
  simp [lookupD, h]

theorem addToTotal_nil (k : String) (v : ℚ) (u : String) :
    addToTotal k v u [] = [(k, ⟨v, u⟩)] := rfl

theorem addToTotal_cons_self (k : String) (v : ℚ) (u : String) (e : TotalEntry)
    (rest : Total) :
    addToTotal k v u ((k, e) :: rest) = (k, ⟨e.value + v, e.unit⟩) :: rest := by
  simp [addToTotal]

theorem addToTotal_cons_ne {a k : String} (v : ℚ) (u : String) (e : TotalEntry)
    (rest : Total) (h : a ≠ k) :
    addToTotal k v u ((a, e) :: rest) = (a, e) :: addToTotal k v u rest := by
  simp [addToTotal, h]

theorem lookupD_eq_none_of_not_mem {α : Type} (n : String) (t : List (String × α))
    (h : n ∉ t.map Prod.fst) : lookupD n t = none := by
  induction t with
  | nil => rfl
  | cons p rest ih =>
    obtain ⟨a, b⟩ := p
    simp only [List.map_cons, List.mem_cons] at h
    push_neg at h
    rw [lookupD_cons_ne b rest (fun hh => h.1 hh.symm), ih h.2]

theorem valueAt_addToTotal (n k : String) (v : ℚ) (u : String) (t : Total) :
    valueAt n (addToTotal k v u t) = valueAt n t + (if n = k then v else 0) := by
  induction t with
  | nil =>
    rw [addToTotal_nil]
    by_cases h : n = k
    · subst h
      simp [valueAt, lookupD_cons_self, lookupD_nil]
    · rw [valueAt, lookupD_cons_ne _ _ (Ne.symm h)]
      simp [valueAt, lookupD_nil, h]
  | cons p rest ih =>
    obtain ⟨a, e⟩ := p
    by_cases h : a = k
    · subst h
      rw [addToTotal_cons_self]
      by_cases h₂ : n = a
      · subst h₂
        simp [valueAt, lookupD_cons_self]
      · rw [valueAt, lookupD_cons_ne _ _ (Ne.symm h₂), valueAt,
           lookupD_cons_ne _ _ (Ne.symm h₂), if_neg h₂]
        simp [valueAt]
    · rw [addToTotal_cons_ne _ _ _ _ h]
      by_cases h₂ : n = a
      · subst h₂
        have hnk : ¬(n = k) := fun hh => h (hh ▸ rfl)
        simp [valueAt, lookupD_cons_self, hnk]
      · rw [valueAt, lookupD_cons_ne _ _ (Ne.symm h₂), valueAt,
           lookupD_cons_ne _ _ (Ne.symm h₂)]
        exact ih

theorem hasKey_addToTotal (n k : String) (v : ℚ) (u : String) (t : Total) :
    hasKey n (addToTotal k v u t) = (hasKey n t || (n == k)) := by
  induction t with
  | nil =>
    rw [addToTotal_nil]
    by_cases h : n = k
    · subst h
      simp [hasKey, lookupD_cons_self, lookupD_nil]
    · rw [hasKey, lookupD_cons_ne _ _ (Ne.symm h)]
      simp [hasKey, lookupD_nil, h]
  | cons p rest ih =>
    obtain ⟨a, e⟩ := p
    by_cases h : a = k
    · subst h
      rw [addToTotal_cons_self]
      by_cases h₂ : n = a
      · subst h₂
        simp [hasKey, lookupD_cons_self]
      · rw [hasKey, lookupD_cons_ne _ _ (Ne.symm h₂), hasKey,
           lookupD_cons_ne _ _ (Ne.symm h₂)]
        have : (n == a) = false := beq_eq_false_iff_ne.mpr h₂
        rw [this]
        simp
    · rw [addToTotal_cons_ne _ _ _ _ h]
      by_cases h₂ : n = a
      · subst h₂
        simp [hasKey, lookupD_cons_self]
      · rw [hasKey, lookupD_cons_ne _ _ (Ne.symm h₂), hasKey,
           lookupD_cons_ne _ _ (Ne.symm h₂)]
        exact ih

theorem mem_keys_addToTotal (x k : String) (v : ℚ) (u : String) (t : Total) :
    x ∈ keysOf (addToTotal k v u t) ↔ (x ∈ keysOf t ∨ x = k) := by
  induction t with
  | nil => simp [keysOf, addToTotal_nil]
  | cons p rest ih =>
    obtain ⟨a, e⟩ := p
    by_cases h : a = k
    · subst h
      rw [addToTotal_cons_self]
      simp only [keysOf, List.map_cons, List.mem_cons] at ih ⊢
      constructor
      · exact fun hx => Or.inl hx
      · rintro ((hx | hx) | hx)
        · exact Or.inl hx
        · exact Or.inr hx
        · exact Or.inl (hx ▸ rfl)
    · rw [addToTotal_cons_ne _ _ _ _ h]
      simp only [keysOf, List.map_cons, List.mem_cons] at ih ⊢
      rw [ih]
      tauto

theorem nodup_keys_addToTotal (k : String) (v : ℚ) (u : String) (t : Total)
    (h : (keysOf t).Nodup) : (keysOf (addToTotal k v u t)).Nodup := by
  induction t with
  | nil => simp [keysOf, addToTotal_nil]
  | cons p rest ih =>
    obtain ⟨a, e⟩ := p
    simp only [keysOf, List.map_cons, List.nodup_cons] at h
    by_cases h₂ : a = k
    · subst h₂
      rw [addToTotal_cons_self]
      simp only [keysOf, List.map_cons, List.nodup_cons]
      exact h
    · rw [addToTotal_cons_ne _ _ _ _ h₂]
      simp only [keysOf, List.map_cons, List.nodup_cons]
      refine ⟨?_, ih h.2⟩
      intro hmem
      rcases (mem_keys_addToTotal a k v u rest).mp hmem with hx | hx
      · exact h.1 hx
      · exact h₂ hx

/-! ### Scaling phase: per-item accounting -/

/-- Whether one of an item's retained nutrients translates to display
name `n`. -/
def itemCarries (n : String) (item : NutritionItem) : Bool :=
  itemEligible item && item.nutrients.any (fun p => nutrientTranslate p.1 == n)

/-- The unrounded amount an item adds to the running total of display
name `n`: the sum of `value * quantity / 100` over its retained
nutrients translating to `n` (0 for ineligible items). -/
def itemContribution (n : String) (item : NutritionItem) : ℚ :=
  if itemEligible item then
    match item.quantity.value with
    | some q =>
      ((item.nutrients.filter (fun p => nutrientTranslate p.1 == n)).map
        (fun p => p.2.value * q / 100)).sum
    | none => 0
  else 0

theorem applyNutrients_snd_valueAt (q : ℚ) (nuts : List (String × NutrientData))
    (acc : List (String × ActualNutrient)) (t : Total) (n : String) :
    valueAt n (applyNutrients q nuts acc t).2 =
      valueAt n t +
        ((nuts.filter (fun p => nutrientTranslate p.1 == n)).map
          (fun p => p.2.value * q / 100)).sum := by
  induction nuts generalizing acc t with
  | nil => simp [applyNutrients]
  | cons p rest ih =>
    obtain ⟨nm, nd⟩ := p
    simp only [applyNutrients]
    rw [ih, valueAt_addToTotal]
    by_cases h : nutrientTranslate nm = n
    · rw [if_pos h.symm]
      simp only [List.filter_cons, h, beq_self_eq_true, if_pos, List.map_cons, List.sum_cons]
      ring
    · rw [if_neg (fun hh => h hh.symm)]
      have : (nutrientTranslate nm == n) = false := beq_eq_false_iff_ne.mpr h
      simp only [List.filter_cons, this, Bool.false_eq_true, if_false]
      ring

theorem applyNutrients_snd_hasKey (q : ℚ) (nuts : List (String × NutrientData))
    (acc : List (String × ActualNutrient)) (t : Total) (n : String) :
    hasKey n (applyNutrients q nuts acc t).2 =
      (hasKey n t || nuts.any (fun p => nutrientTranslate p.1 == n)) := by
  induction nuts generalizing acc t with
  | nil => simp [applyNutrients]
  | cons p rest ih =>
    obtain ⟨nm, nd⟩ := p
    simp only [applyNutrients]
    rw [ih, hasKey_addToTotal]
    simp only [List.any_cons]
    by_cases h : nutrientTranslate nm = n
    · have : (n == nutrientTranslate nm) = true := beq_iff_eq.mpr h.symm
      simp [this, h]
    · have h₁ : (n == nutrientTranslate nm) = false :=
        beq_eq_false_iff_ne.mpr (fun hh => h hh.symm)
      have h₂ : (nutrientTranslate nm == n) = false := beq_eq_false_iff_ne.mpr h
      simp [h₁, h₂]

theorem applyNutrients_snd_nodup (q : ℚ) (nuts : List (String × NutrientData))
    (acc : List (String × ActualNutrient)) (t : Total)
    (h : (keysOf t).Nodup) : (keysOf (applyNutrients q nuts acc t).2).Nodup := by
  induction nuts generalizing acc t with
  | nil => exact h
  | cons p rest ih =>
    obtain ⟨nm, nd⟩ := p
    simp only [applyNutrients]
    exact ih _ _ (nodup_keys_addToTotal _ _ _ _ h)

theorem scaleItemsLoop_total {items : List NutritionItem} {t₀ : Total}
    {items₂ : List NutritionItem} {t : Total}
    (h : scaleItemsLoop items t₀ = .ok (items₂, t)) (n : String) :
    valueAt n t = valueAt n t₀ + (items.map (itemContribution n)).sum ∧
    hasKey n t = (hasKey n t₀ || items.any (itemCarries n)) ∧
    ((keysOf t₀).Nodup → (keysOf t).Nodup) := by
  induction items generalizing t₀ items₂ with
  | nil =>
    simp only [scaleItemsLoop, Except.ok.injEq, Prod.mk.injEq] at h
    rw [← h.2]
    simp
  | cons item rest ih =>
    simp only [scaleItemsLoop] at h
    by_cases he : itemEligible item
    · rw [if_pos he] at h
      cases hq : item.quantity.value with
      | none =>
        simp only [hq] at h
        exact absurd h (by simp)
      | some q =>
        simp only [hq] at h
        rcases hap : applyNutrients q item.nutrients [] t₀ with ⟨acts, t₁⟩
        simp only [hap] at h
        cases hrest : scaleItemsLoop rest t₁ with
        | error e =>
          simp only [hrest] at h
          exact absurd h (by simp)
        | ok p =>
          obtain ⟨items₃, t₄⟩ := p
          simp only [hrest] at h
          simp only [Except.ok.injEq, Prod.mk.injEq] at h
          obtain ⟨-, ht⟩ := h
          subst ht
          obtain ⟨ihv, ihk, ihn⟩ := ih hrest
          have hv₁ : valueAt n t₁ = valueAt n t₀ + itemContribution n item := by
            have := applyNutrients_snd_valueAt q item.nutrients [] t₀ n
            rw [hap] at this
            rw [this, itemContribution, if_pos he, hq]
          have hk₁ : hasKey n t₁ = (hasKey n t₀ || itemCarries n item) := by
            have := applyNutrients_snd_hasKey q item.nutrients [] t₀ n
            rw [hap] at this
            rw [this, itemCarries, he]
            simp
          have hn₁ : (keysOf t₀).Nodup → (keysOf t₁).Nodup := by
            intro hnd
            have := applyNutrients_snd_nodup q item.nutrients [] t₀ hnd
            rwa [hap] at this
          refine ⟨?_, ?_, fun hnd => ihn (hn₁ hnd)⟩
          · rw [ihv, hv₁, List.map_cons, List.sum_cons]
            ring
          · rw [ihk, hk₁, List.any_cons]
            simp [Bool.or_assoc]
    · rw [if_neg he] at h
      cases hrest : scaleItemsLoop rest t₀ with
      | error e =>
        simp only [hrest] at h
        exact absurd h (by simp)
      | ok p =>
        obtain ⟨items₃, t₄⟩ := p
        simp only [hrest] at h
        simp only [Except.ok.injEq, Prod.mk.injEq] at h
        obtain ⟨-, ht⟩ := h
        subst ht
        obtain ⟨ihv, ihk, ihn⟩ := ih hrest
        have hc : itemContribution n item = 0 := by
          rw [itemContribution, if_neg (by simp [he])]
        have hcar : itemCarries n item = false := by
          rw [itemCarries]
          simp [he]
        refine ⟨?_, ?_, ihn⟩
        · rw [ihv, List.map_cons, List.sum_cons, hc]
          ring
        · rw [ihk, List.any_cons, hcar]
          simp

theorem lookupD_roundTotal (n : String) (t : Total) :
    lookupD n (roundTotal t) =
      (lookupD n t).map (fun e => ⟨pyRound2 e.value, e.unit⟩) := by
  induction t with
  | nil => rfl
  | cons p rest ih =>
    obtain ⟨a, e⟩ := p
    by_cases h : a = n
    · subst h
      simp only [roundTotal, List.map_cons]
      rw [lookupD_cons_self, lookupD_cons_self]
      rfl
    · simp only [roundTotal, List.map_cons] at ih ⊢
      rw [lookupD_cons_ne _ _ h, lookupD_cons_ne _ _ h]
      exact ih

theorem keysOf_roundTotal (t : Total) : keysOf (roundTotal t) = keysOf t := by
  induction t with
  | nil => rfl
  | cons p rest ih =>
    simp only [roundTotal, keysOf, List.map_cons] at ih ⊢
    rw [ih]

theorem hasKey_eq_any (n : String) (t : Total) :
    hasKey n t = t.any (fun p => p.1 == n) := by
  induction t with
  | nil => rfl
  | cons p rest ih =>
    obtain ⟨a, e⟩ := p
    by_cases h : a = n
    · subst h
      rw [hasKey, lookupD_cons_self]
      simp
    · rw [hasKey, lookupD_cons_ne _ _ h, List.any_cons]
      have : (a == n) = false := beq_eq_false_iff_ne.mpr h
      rw [this]
      simpa [hasKey] using ih

/-- Summary of `calculate_actual_nutrition_for_items` for one display
name: the key is present iff some item carries it, in which case
its value is the rounded sum of the unrounded per-item contributions;
and the total's keys are distinct. -/
theorem calc_items_total {items items₂ : List NutritionItem} {total : Total}
    (h : calculate_actual_nutrition_for_items items = .ok (items₂, total)) (n : String) :
    hasKey n total = items.any (itemCarries n) ∧
    (items.any (itemCarries n) = true →
      ∃ e, lookupD n total = some e ∧
        e.value = pyRound2 ((items.map (itemContribution n)).sum)) ∧
    (keysOf total).Nodup := by
  unfold calculate_actual_nutrition_for_items at h
  cases hs : scaleItemsLoop items [] with
  | error e =>
    rw [hs] at h
    exact absurd h (by simp)
  | ok p =>
    obtain ⟨items₃, t⟩ := p
    rw [hs] at h
    simp only [Except.ok.injEq, Prod.mk.injEq] at h
    obtain ⟨-, htotal⟩ := h
    subst htotal
    obtain ⟨hv, hk, hnd⟩ := scaleItemsLoop_total hs n
    have hkey : hasKey n (roundTotal t) = hasKey n t := by
      rw [hasKey, hasKey, lookupD_roundTotal]
      cases lookupD n t <;> rfl
    have hkey₂ : hasKey n t = items.any (itemCarries n) := by
      rw [hk]
      rfl
    refine ⟨by rw [hkey, hkey₂], ?_, ?_⟩
    · intro hany
      have : hasKey n t = true := by rw [hkey₂, hany]
      rw [hasKey, Option.isSome_iff_exists] at this
      obtain ⟨e₀, he₀⟩ := this
      refine ⟨⟨pyRound2 e₀.value, e₀.unit⟩, ?_, ?_⟩
      · rw [lookupD_roundTotal, he₀]
        rfl
      · have : e₀.value = (items.map (itemContribution n)).sum := by
          have hv₀ : valueAt n t = e₀.value := by
            rw [valueAt, he₀]
            rfl
          rw [← hv₀, hv]
          simp [valueAt, lookupD_nil]
        rw [this]
    · rw [keysOf_roundTotal]
      exact hnd (by simp [keysOf])

/-! ### Dish-level accounting -/

/-- Whether some item of a dish carries display name `n`. -/
def dishCarries (n : String) (dish : Dish) : Bool := dish.items.any (itemCarries n)

/-- The (already rounded) amount one dish's total records for display
name `n`, as accumulated into the overall total. -/
def dishContribution (n : String) (dish : Dish) : ℚ :=
  if dishCarries n dish then pyRound2 ((dish.items.map (itemContribution n)).sum) else 0

theorem valueAt_addDishTotal (dt ov : Total) (n : String) (hnd : (keysOf dt).Nodup) :
    valueAt n (addDishTotal dt ov) = valueAt n ov + valueAt n dt := by
  induction dt generalizing ov with
  | nil => simp [addDishTotal, valueAt, lookupD_nil]
  | cons p rest ih =>
    obtain ⟨k, e⟩ := p
    simp only [keysOf, List.map_cons, List.nodup_cons] at hnd
    simp only [addDishTotal]
    rw [ih _ hnd.2, valueAt_addToTotal]
    by_cases h : n = k
    · subst h
      have hrest : lookupD n rest = none := lookupD_eq_none_of_not_mem n rest hnd.1
      rw [if_pos rfl]
      have h₁ : valueAt n rest = 0 := by rw [valueAt, hrest]; rfl
      have h₂ : valueAt n ((n, e) :: rest) = e.value := by
        rw [valueAt, lookupD_cons_self]
        rfl
      rw [h₁, h₂]
      ring
    · rw [if_neg h]
      have h₂ : valueAt n ((k, e) :: rest) = valueAt n rest := by
        rw [valueAt, lookupD_cons_ne _ _ (fun hh => h hh.symm), valueAt]
      rw [h₂]
      ring

theorem hasKey_addDishTotal (dt ov : Total) (n : String) :
    hasKey n (addDishTotal dt ov) = (hasKey n ov || dt.any (fun p => p.1 == n)) := by
  induction dt generalizing ov with
  | nil => simp [addDishTotal]
  | cons p rest ih =>
    obtain ⟨k, e⟩ := p
    simp only [addDishTotal]
    rw [ih, hasKey_addToTotal, List.any_cons]
    by_cases h : n = k
    · subst h
      simp
    · have h₁ : (n == k) = false := beq_eq_false_iff_ne.mpr h
      have h₂ : (k == n) = false := beq_eq_false_iff_ne.mpr (fun hh => h hh.symm)
      rw [h₁, h₂]
      simp

theorem scaleDishesLoop_total {dishes : List Dish} {ov₀ : Total}
    {dishes₂ : List Dish} {ov : Total}
    (h : scaleDishesLoop dishes ov₀ = .ok (dishes₂, ov)) (n : String) :
    valueAt n ov = valueAt n ov₀ + (dishes.map (dishContribution n)).sum ∧
    hasKey n ov = (hasKey n ov₀ || dishes.any (dishCarries n)) := by
  induction dishes generalizing ov₀ dishes₂ with
  | nil =>
    simp only [scaleDishesLoop, Except.ok.injEq, Prod.mk.injEq] at h
    rw [← h.2]
    simp
  | cons dish rest ih =>
    simp only [scaleDishesLoop] at h
    cases hc : calculate_actual_nutrition_for_items dish.items with
    | error e =>
      simp only [hc] at h
      exact absurd h (by simp)
    | ok p =>
      obtain ⟨items_d, dt⟩ := p
      simp only [hc] at h
      cases hrest : scaleDishesLoop rest (addDishTotal dt ov₀) with
      | error e =>
        simp only [hrest] at h
        exact absurd h (by simp)
      | ok p₂ =>
        obtain ⟨ds₂, ov₂⟩ := p₂
        simp only [hrest, Except.ok.injEq, Prod.mk.injEq] at h
        obtain ⟨-, hov⟩ := h
        subst hov
        obtain ⟨ihv, ihk⟩ := ih hrest
        obtain ⟨hkdt, hvdt, hnddt⟩ := calc_items_total hc n
        have hdtv : valueAt n dt = dishContribution n dish := by
          by_cases hcar : dish.items.any (itemCarries n) = true
          · obtain ⟨e, he, hev⟩ := hvdt hcar
            have : valueAt n dt = e.value := by rw [valueAt, he]; rfl
            rw [this, hev, dishContribution, if_pos (by rw [dishCarries]; exact hcar)]
          · have hfalse : hasKey n dt = false := by
              rw [hkdt]
              exact Bool.not_eq_true _ ▸ hcar
            have hnone : lookupD n dt = none := by
              rw [hasKey] at hfalse
              exact Option.not_isSome_iff_eq_none.mp (by rw [hfalse]; simp)
            have h₁ : valueAt n dt = 0 := by rw [valueAt, hnone]; rfl
            have h₂ : dishCarries n dish = false := by
              rw [dishCarries]
              exact Bool.not_eq_true _ ▸ hcar
            rw [h₁, dishContribution, h₂]
            simp
        have hdtk : dt.any (fun p => p.1 == n) = dishCarries n dish := by
          rw [← hasKey_eq_any, hkdt, dishCarries]
        constructor
        · rw [ihv, valueAt_addDishTotal dt ov₀ n hnddt, hdtv, List.map_cons, List.sum_cons]
          ring
        · rw [ihk, hasKey_addDishTotal, hdtk, List.any_cons]
          simp [Bool.or_assoc]

/-! ### C1: totals versus stored per-item values -/

/-- The total value a report records for display name `n`. -/
def reportTotalValue (res : Except String NutritionData) (n : String) : Option ℚ :=
  match res with
  | .error _ => none
  | .ok nd => (lookupD n (nd.total_nutrition.getD [])).map TotalEntry.value

/-- The flat items of a single-dish report result. -/
def reportItems (res : Except String NutritionData) : List NutritionItem :=
  match res with
  | .error _ => []
  | .ok nd => nd.items.getD []

/-- The rounded value stored on one item's `actual_nutrients` for
display name `n` (0 when absent). -/
def storedValue (n : String) (item : NutritionItem) : ℚ :=
  ((lookupD n (item.actual_nutrients.getD [])).map ActualNutrient.value).getD 0

/-- Sum over items of the stored (rounded) `actual_nutrients` values. -/
def storedSum (n : String) (items : List NutritionItem) : ℚ :=
  (items.map (storedValue n)).sum

/-- An item whose single retained nutrient scales to 0.004, which
rounds to 0 in `actual_nutrients` while contributing 0.004 to the
running total. -/
def itemLow : NutritionItem :=
  { name_jp := "調味料", name_en := "seasoning", quantity := ⟨some 1, "g"⟩, confidence := 1,
    fdc_id := some 1001, fdc_description := "seasoning",
    nutrients := [("Energy", ⟨4/10, "kcal"⟩)], actual_nutrients := none }

/-- A single-dish report with two such items. -/
def ndC1 : NutritionData :=
  { meal_name := "テスト", meal_name_en := "test", items := some [itemLow, itemLow],
    dishes := none, total_nutrition := none }

/-- C1 counterexample: on `ndC1` the code's total for エネルギー is
round(0.004 + 0.004, 2) = 0.01, while the values stored on the items'
`actual_nutrients` are round(0.004, 2) = 0 each, so the claimed
`round(sum of stored values, 2) = 0` differs from the total. -/
theorem c1_total_ne_round_storedSum :
    reportTotalValue (calculate_actual_nutrition ndC1) "エネルギー" = some (1/100) ∧
    pyRound2 (storedSum "エネルギー" (reportItems (calculate_actual_nutrition ndC1))) = 0 ∧
    reportTotalValue (calculate_actual_nutrition ndC1) "エネルギー" ≠
      some (pyRound2 (storedSum "エネルギー" (reportItems (calculate_actual_nutrition ndC1)))) := by
  have h₁ : reportTotalValue (calculate_actual_nutrition ndC1) "エネルギー" = some (1/100) := by
    norm_num [ndC1, itemLow, calculate_actual_nutrition, calculate_actual_nutrition_for_items,
      scaleItemsLoop, itemEligible, truthyId, applyNutrients, nutrientTranslate,
      NUTRIENT_TRANSLATIONS, lookupD, dictInsert, addToTotal, roundTotal, reportTotalValue,
      pyRound2, roundHalfEven]
  have h₂ : pyRound2 (storedSum "エネルギー" (reportItems (calculate_actual_nutrition ndC1))) = 0 := by
    norm_num [ndC1, itemLow, calculate_actual_nutrition, calculate_actual_nutrition_for_items,
      scaleItemsLoop, itemEligible, truthyId, applyNutrients, nutrientTranslate,
      NUTRIENT_TRANSLATIONS, lookupD, dictInsert, addToTotal, roundTotal, reportItems,
      storedSum, storedValue, pyRound2, roundHalfEven]
  refine ⟨h₁, h₂, ?_⟩
  rw [h₁, h₂]
  intro hcontra
  have : (1/100 : ℚ) = 0 := Option.some.inj hcontra
  norm_num at this

/-- C1 (amended): a nutrient's total is the 2-decimal rounding of the
sum of the *unrounded* per-item scaled values (`value * quantity /
100`), per dish scope; in the multi-dish case the overall total is the
2-decimal rounding of the sum of the already-rounded per-dish totals. -/
theorem c1_totals_amended :
    (∀ (items items₂ : List NutritionItem) (total : Total) (n : String),
       calculate_actual_nutrition_for_items items = .ok (items₂, total) →
       items.any (itemCarries n) = true →
       ∃ e, lookupD n total = some e ∧
         e.value = pyRound2 ((items.map (itemContribution n)).sum)) ∧
    (∀ (nd : NutritionData) (dishes : List Dish) (nd₂ : NutritionData) (n : String),
       nd.dishes = some dishes →
       calculate_actual_nutrition nd = .ok nd₂ →
       dishes.any (dishCarries n) = true →
       ∃ total e, nd₂.total_nutrition = some total ∧ lookupD n total = some e ∧
         e.value = pyRound2 ((dishes.map (dishContribution n)).sum)) := by
  constructor
  · intro items items₂ total n h hany
    exact (calc_items_total h n).2.1 hany
  · intro nd dishes nd₂ n hdish h hany
    unfold calculate_actual_nutrition at h
    simp only [hdish] at h
    cases hs : scaleDishesLoop dishes [] with
    | error e =>
      simp only [hs] at h
      exact absurd h (by simp)
    | ok p =>
      obtain ⟨ds₂, ov⟩ := p
      simp only [hs] at h
      simp only [Except.ok.injEq] at h
      subst h
      obtain ⟨hv, hk⟩ := scaleDishesLoop_total hs n
      have hkey : hasKey n ov = true := by
        rw [hk, hany]
        simp
      rw [hasKey, Option.isSome_iff_exists] at hkey
      obtain ⟨e₀, he₀⟩ := hkey
      refine ⟨roundTotal ov, ⟨pyRound2 e₀.value, e₀.unit⟩, rfl, ?_, ?_⟩
      · rw [lookupD_roundTotal, he₀]
        rfl
      · have hv₀ : valueAt n ov = e₀.value := by
          rw [valueAt, he₀]
          rfl
        have : e₀.value = (dishes.map (dishContribution n)).sum := by
          rw [← hv₀, hv]
          simp [valueAt, lookupD_nil]
        rw [this]

/-- The item list and expected scaling output used by the C1 witness. -/
def itemsW : List NutritionItem := [itemLow, itemLow]

/-- Expected mutated items for `itemsW`. -/
def itemsW₂ : List NutritionItem :=
  [{ itemLow with actual_nutrients := some [("エネルギー", ⟨0, "kcal", "Energy"⟩)] },
   { itemLow with actual_nutrients := some [("エネルギー", ⟨0, "kcal", "Energy"⟩)] }]

/-- Expected rounded total for `itemsW`. -/
def totalW : Total := [("エネルギー", ⟨1/100, "kcal"⟩)]

/-- C1 witness: the amended totals law evaluated on the concrete
two-item list. -/
theorem c1_totals_amended_witness :
    (lookupD "エネルギー" totalW).map TotalEntry.value = some (1/100) ∧
    (1/100 : ℚ) = pyRound2 ((itemsW.map (itemContribution "エネルギー")).sum) := by
  have hcalc : calculate_actual_nutrition_for_items itemsW = .ok (itemsW₂, totalW) := by
    norm_num [itemsW, itemsW₂, totalW, itemLow, calculate_actual_nutrition_for_items,
      scaleItemsLoop, itemEligible, truthyId, applyNutrients, nutrientTranslate,
      NUTRIENT_TRANSLATIONS, lookupD, dictInsert, addToTotal, roundTotal,
      pyRound2, roundHalfEven]
  obtain ⟨e, he, hv⟩ :=
    c1_totals_amended.1 itemsW itemsW₂ totalW "エネルギー" hcalc (by decide)
  have hlook : lookupD "エネルギー" totalW = some ⟨1/100, "kcal"⟩ := by
    simp [totalW, lookupD]
  rw [hlook] at he
  have he₂ : e = ⟨1/100, "kcal"⟩ := (Option.some.inj he).symm
  subst he₂
  refine ⟨by rw [hlook]; rfl, ?_⟩
  exact hv

/-! ### C4: the per-nutrient scaled values -/

/-- The `actual_nutrients` dict built for one item (the first
component of `applyNutrients`, which does not depend on the running
total). -/
def scaledNutrients (q : ℚ) :
    List (String × NutrientData) → List (String × ActualNutrient) →
    List (String × ActualNutrient)
  | [], actual_nutrients => actual_nutrients
  | (nutrient_name, nutrient_data) :: rest, actual_nutrients =>
    scaledNutrients q rest
      (dictInsert (nutrientTranslate nutrient_name)
        ⟨pyRound2 (nutrient_data.value * q / 100), nutrient_data.unit, nutrient_name⟩
        actual_nutrients)

theorem applyNutrients_fst (q : ℚ) (nuts : List (String × NutrientData))
    (acc : List (String × ActualNutrient)) (t : Total) :
    (applyNutrients q nuts acc t).1 = scaledNutrients q nuts acc := by
  induction nuts generalizing acc t with
  | nil => rfl
  | cons p rest ih =>
    obtain ⟨nm, nd⟩ := p
    simp only [applyNutrients, scaledNutrients]
    exact ih _ _

/-- What `scaleItemsLoop` does to one item. -/
def scaleOneItem (item : NutritionItem) : NutritionItem :=
  if itemEligible item then
    match item.quantity.value with
    | some q => { item with actual_nutrients := some (scaledNutrients q item.nutrients []) }
    | none => item
  else item

theorem scaleItemsLoop_items {items : List NutritionItem} {t₀ : Total}
    {items₂ : List NutritionItem} {t : Total}
    (h : scaleItemsLoop items t₀ = .ok (items₂, t)) :
    items₂ = items.map scaleOneItem := by
  induction items generalizing t₀ items₂ with
  | nil =>
    simp only [scaleItemsLoop, Except.ok.injEq, Prod.mk.injEq] at h
    rw [← h.1]
    rfl
  | cons item rest ih =>
    simp only [scaleItemsLoop] at h
    by_cases he : itemEligible item
    · rw [if_pos he] at h
      cases hq : item.quantity.value with
      | none =>
        simp only [hq] at h
        exact absurd h (by simp)
      | some q =>
        simp only [hq] at h
        cases hrest : scaleItemsLoop rest (applyNutrients q item.nutrients [] t₀).2 with
        | error e =>
          simp only [hrest] at h
          exact absurd h (by simp)
        | ok p =>
          obtain ⟨items₃, t₄⟩ := p
          simp only [hrest, Except.ok.injEq, Prod.mk.injEq] at h
          obtain ⟨h₁, h₂⟩ := h
          subst h₂
          rw [← h₁, List.map_cons, ih hrest, scaleOneItem, if_pos he, hq,
             applyNutrients_fst]
    · rw [if_neg he] at h
      cases hrest : scaleItemsLoop rest t₀ with
      | error e =>
        simp only [hrest] at h
        exact absurd h (by simp)
      | ok p =>
        obtain ⟨items₃, t₄⟩ := p
        simp only [hrest, Except.ok.injEq, Prod.mk.injEq] at h
        obtain ⟨h₁, h₂⟩ := h
        subst h₂
        rw [← h₁, List.map_cons, ih hrest, scaleOneItem, if_neg he]

theorem lookupD_scaledNutrients_of_not_mem (q : ℚ) (nuts : List (String × NutrientData))
    (acc : List (String × ActualNutrient)) (k : String)
    (h : k ∉ nuts.map (fun p => nutrientTranslate p.1)) :
    lookupD k (scaledNutrients q nuts acc) = lookupD k acc := by
  induction nuts generalizing acc with
  | nil => rfl
  | cons p rest ih =>
    obtain ⟨nm, nd⟩ := p
    simp only [List.map_cons, List.mem_cons] at h
    push_neg at h
    simp only [scaledNutrients]
    rw [ih _ h.2, lookupD_dictInsert_ne _ _ h.1]

theorem lookupD_scaledNutrients (q : ℚ) (nuts : List (String × NutrientData))
    (hnodup : (nuts.map (fun p => nutrientTranslate p.1)).Nodup) :
    ∀ acc, ∀ p ∈ nuts,
      lookupD (nutrientTranslate p.1) (scaledNutrients q nuts acc) =
        some ⟨pyRound2 (p.2.value * q / 100), p.2.unit, p.1⟩ := by
  induction nuts with
  | nil => intro acc p hp; exact absurd hp (by simp)
  | cons hd rest ih =>
    obtain ⟨nm, nd⟩ := hd
    simp only [List.map_cons, List.nodup_cons] at hnodup
    intro acc p hp
    rcases List.mem_cons.mp hp with hp₁ | hp₂
    · subst hp₁
      simp only [scaledNutrients]
      rw [lookupD_scaledNutrients_of_not_mem _ _ _ _ hnodup.1,
         lookupD_dictInsert_self]
    · exact ih hnodup.2 _ p hp₂

/-- C4: for every item with truthy `fdc_id`, non-empty retained
nutrients and numeric quantity Q, the output item at the same position
stores, for each retained nutrient of per-100-unit value V, exactly
`round(V*Q/100, 2)` in `actual_nutrients`, keyed by the translated
display name (or the untranslated name when no table entry exists,
which is what `nutrientTranslate` does) and retaining the original
pre-translation name and the nutrient's unit.  The translated keys are
assumed pairwise distinct so that every nutrient's entry survives the
dict writes. -/
theorem c4_actual_values (items items₂ : List NutritionItem) (total : Total)
    (i : ℕ) (item : NutritionItem) (q : ℚ)
    (h : calculate_actual_nutrition_for_items items = .ok (items₂, total))
    (hi : items[i]? = some item)
    (ht : truthyId item.fdc_id = true)
    (hne : item.nutrients ≠ [])
    (hq : item.quantity.value = some q)
    (hnodup : (item.nutrients.map (fun p => nutrientTranslate p.1)).Nodup) :
    ∃ acts, items₂[i]? = some { item with actual_nutrients := some acts } ∧
      ∀ p ∈ item.nutrients,
        lookupD (nutrientTranslate p.1) acts =
          some ⟨pyRound2 (p.2.value * q / 100), p.2.unit, p.1⟩ := by
  have he : itemEligible item = true := by
    rw [itemEligible, ht]
    simp [hne]
  unfold calculate_actual_nutrition_for_items at h
  cases hs : scaleItemsLoop items [] with
  | error e =>
    rw [hs] at h
    exact absurd h (by simp)
  | ok p =>
    obtain ⟨items₃, t⟩ := p
    rw [hs] at h
    simp only [Except.ok.injEq, Prod.mk.injEq] at h
    obtain ⟨hitems, -⟩ := h
    subst hitems
    have hmap := scaleItemsLoop_items hs
    refine ⟨scaledNutrients q item.nutrients [], ?_, ?_⟩
    · rw [hmap, List.getElem?_map, hi]
      show some (scaleOneItem item) = _
      rw [scaleOneItem, if_pos he, hq]
    · exact fun p hp => lookupD_scaledNutrients q item.nutrients hnodup [] p hp

/-- The item scaled by the C4 witness: shrimp, 150 g, Energy 85 per
100 g. -/
def itemShrimp : NutritionItem :=
  { name_jp := "エビ", name_en := "shrimp", quantity := ⟨some 150, "g"⟩, confidence := 9/10,
    fdc_id := some 175180, fdc_description := "Crustaceans, shrimp",
    nutrients := [("Energy", ⟨85, "kcal"⟩), ("Protein", ⟨20, "g"⟩)],
    actual_nutrients := none }

/-- Expected output of scaling `[itemShrimp]`. -/
def itemShrimpScaled : NutritionItem :=
  { itemShrimp with
    actual_nutrients := some [("エネルギー", ⟨pyRound2 (85 * 150 / 100), "kcal", "Energy"⟩),
                              ("タンパク質", ⟨pyRound2 (20 * 150 / 100), "g", "Protein"⟩)] }

/-- C4 witness: scaling the one-item shrimp list stores
round(85*150/100, 2) = 127.5 under エネルギー with original name
Energy. -/
theorem c4_actual_values_witness :
    (calculate_actual_nutrition_for_items [itemShrimp]).isOk = true ∧
    ((127 + 1/2 : ℚ) = pyRound2 (85 * 150 / 100)) := by
  have hcalc : calculate_actual_nutrition_for_items [itemShrimp] =
      .ok ([itemShrimpScaled],
           [("エネルギー", ⟨pyRound2 (85 * 150 / 100), "kcal"⟩),
            ("タンパク質", ⟨pyRound2 (20 * 150 / 100), "g"⟩)]) := by
    norm_num +decide [itemShrimp, itemShrimpScaled, calculate_actual_nutrition_for_items,
      scaleItemsLoop, itemEligible, truthyId, applyNutrients, nutrientTranslate,
      NUTRIENT_TRANSLATIONS, lookupD, dictInsert, addToTotal, roundTotal]
  obtain ⟨acts, hacts, hlook⟩ :=
    c4_actual_values [itemShrimp] _ _ 0 itemShrimp 150 hcalc rfl rfl (by simp [itemShrimp])
      rfl (by decide)
  refine ⟨by rw [hcalc]; rfl, ?_⟩
  have := hlook ("Energy", ⟨85, "kcal"⟩) (by simp [itemShrimp])
  norm_num [pyRound2, roundHalfEven]

/-! ### C8: missing quantity is fatal -/

/-- Whether a pipeline step raised. -/
def isError {ε α : Type} : Except ε α → Bool
  | .error _ => true
  | .ok _ => false

theorem scaleItemsLoop_error (items : List NutritionItem) :
    ∀ t₀ : Total,
      (∃ item ∈ items, itemEligible item = true ∧ item.quantity.value = none) →
      ∃ e, scaleItemsLoop items t₀ = .error e := by
  induction items with
  | nil =>
    intro t₀ h
    obtain ⟨item, hmem, -⟩ := h
    exact absurd hmem (by simp)
  | cons hd rest ih =>
    intro t₀ h
    obtain ⟨item, hmem, helig, hval⟩ := h
    rcases List.mem_cons.mp hmem with heq | hmem₂
    · subst heq
      exact ⟨"KeyError: quantity value for " ++ item.name_jp,
        by simp [scaleItemsLoop, helig, hval]⟩
    · by_cases helig₂ : itemEligible hd
      · cases hv : hd.quantity.value with
        | none =>
          exact ⟨"KeyError: quantity value for " ++ hd.name_jp,
            by simp [scaleItemsLoop, helig₂, hv]⟩
        | some q =>
          obtain ⟨e, he⟩ :=
            ih ((applyNutrients q hd.nutrients [] t₀).2) ⟨item, hmem₂, helig, hval⟩
          exact ⟨e, by simp [scaleItemsLoop, helig₂, hv, he]⟩
      · obtain ⟨e, he⟩ := ih t₀ ⟨item, hmem₂, helig, hval⟩
        exact ⟨e, by simp [scaleItemsLoop, helig₂, he]⟩

theorem calc_items_error (items : List NutritionItem)
    (h : ∃ item ∈ items, itemEligible item = true ∧ item.quantity.value = none) :
    ∃ e, calculate_actual_nutrition_for_items items = .error e := by
  obtain ⟨e, he⟩ := scaleItemsLoop_error items [] h
  exact ⟨e, by simp [calculate_actual_nutrition_for_items, he]⟩

theorem scaleDishesLoop_error (dishes : List Dish) (dish : Dish)
    (hbad : ∃ item ∈ dish.items, itemEligible item = true ∧ item.quantity.value = none) :
    ∀ ov : Total, dish ∈ dishes → ∃ e, scaleDishesLoop dishes ov = .error e := by
  induction dishes with
  | nil =>
    intro ov hmem
    exact absurd hmem (by simp)
  | cons d rest ih =>
    intro ov hmem
    rcases List.mem_cons.mp hmem with heq | hmem₂
    · subst heq
      obtain ⟨e, he⟩ := calc_items_error dish.items hbad
      exact ⟨e, by simp [scaleDishesLoop, he]⟩
    · cases hc : calculate_actual_nutrition_for_items d.items with
      | error e => exact ⟨e, by simp [scaleDishesLoop, hc]⟩
      | ok p =>
        obtain ⟨items_d, dt⟩ := p
        obtain ⟨e, he⟩ := ih (addDishTotal dt ov) hmem₂
        exact ⟨e, by simp [scaleDishesLoop, hc, he]⟩

/-- C8: an item with truthy `fdc_id`, non-empty retained nutrients and
a missing/non-numeric quantity value makes the scaling phase raise:
`calculate_actual_nutrition_for_items` returns an error, and
`calculate_actual_nutrition` propagates it for both report shapes
instead of catching or substituting a default. -/
theorem c8_missing_quantity_fatal (items : List NutritionItem)
    (h : ∃ item ∈ items, truthyId item.fdc_id = true ∧ item.nutrients ≠ [] ∧
         item.quantity.value = none) :
    (∃ e, calculate_actual_nutrition_for_items items = .error e) ∧
    (∀ nd : NutritionData, nd.dishes = none → nd.items = some items →
       ∃ e, calculate_actual_nutrition nd = .error e) ∧
    (∀ (nd : NutritionData) (dishes : List Dish) (dish : Dish),
       nd.dishes = some dishes → dish ∈ dishes → dish.items = items →
       ∃ e, calculate_actual_nutrition nd = .error e) := by
  have h₂ : ∃ item ∈ items, itemEligible item = true ∧ item.quantity.value = none := by
    obtain ⟨item, hmem, ht, hne, hval⟩ := h
    refine ⟨item, hmem, ?_, hval⟩
    rw [itemEligible, ht]
    simp [hne]
  obtain ⟨e₀, he₀⟩ := calc_items_error items h₂
  refine ⟨⟨e₀, he₀⟩, ?_, ?_⟩
  · intro nd hdn hdi
    refine ⟨e₀, ?_⟩
    unfold calculate_actual_nutrition
    simp only [hdn, hdi, he₀]
  · intro nd dishes dish hds hmem hitems
    obtain ⟨e, he⟩ := scaleDishesLoop_error dishes dish (by rw [hitems]; exact h₂) [] hmem
    refine ⟨e, ?_⟩
    unfold calculate_actual_nutrition
    simp only [hds, he]

/-- An eligible item whose quantity has no numeric value. -/
def itemNoQty : NutritionItem :=
  { name_jp := "卵", name_en := "egg", quantity := ⟨none, "個"⟩, confidence := 1,
    fdc_id := some 748967, fdc_description := "Eggs",
    nutrients := [("Energy", ⟨143, "kcal"⟩)], actual_nutrients := none }

/-- C8 witness: the one-item batch with a missing quantity value makes
the scaling phase return an error. -/
theorem c8_missing_quantity_fatal_witness :
    isError (calculate_actual_nutrition_for_items [itemNoQty]) = true := by
  obtain ⟨e, he⟩ := (c8_missing_quantity_fatal [itemNoQty]
    ⟨itemNoQty, by simp, by decide, by simp [itemNoQty], rfl⟩).1
  rw [he]
  rfl

end FoodPipeline
